import Mathlib

/-!
# Shallow embedding of `interdisciplinarity.py`

This file models the `Interdisc` scoring engine of the repository: the
Jensen-Shannon divergence, the integrator/broadcast scores, matrix
normalization, and the batched venue-count aggregation
(`get_venue_counts` / `_update_counter`), together with the database
collaborator `DBConnectMAG.query_for_venue_counts` whose SQL semantics the
aggregation claims depend on.  Machine floats are modelled by real numbers;
pandas/Counter containers are modelled by lists and an explicit key-tracking
tally structure.
-/

/-- Paper identifiers circulate as strings: `parse_id` renders every id with
`str`, and the facade applies `.astype(str)` to citation results. -/
abbrev PaperId := String

/-- One row of the external `Papers` table as seen by
`DBConnectMAG.query_for_venue_counts`: a paper id plus the numeric venue value
stored in each venue column.  `0` models SQL NULL / no venue; the query
filters on `col_venue > 0`. -/
structure PaperRow where
  pid : PaperId
  venue : String → ℕ

/-- The database collaborator (`DBConnectMAG`): the list of venue-taxonomy
column names (`colname_venue`), the `Papers` table, and the out-citation
query `query_for_citations(·, direction='out')`, kept abstract because the
links table itself never feeds the claims. -/
structure CitationDB where
  colname_venue : List String
  papers : List PaperRow
  cites_out : List PaperId → List PaperId

/-- The table rows matched by one venue-count query: the `WHERE paper_id IN
(subset) AND col_venue > 0` clause of `DBConnectMAG.query_for_venue_counts`. -/
def matching_rows (db : CitationDB) (subset : List PaperId) (col : String) :
    List PaperRow :=
  db.papers.filter (fun r => decide (r.pid ∈ subset) && decide (0 < r.venue col))

/-- `DBConnectMAG.query_for_venue_counts`: the generated SQL is
`SELECT count(*), col_venue FROM Papers WHERE paper_id IN (subset) AND
col_venue > 0 GROUP BY col_venue`.  The result is one `(count, venue_id)` row
per distinct venue value among the matching table rows.  Note that the SQL
`IN` clause collapses duplicate ids inside one query. -/
def query_for_venue_counts (db : CitationDB) (subset : List PaperId) (col : String) :
    List (ℕ × ℕ) :=
  let matching := matching_rows db subset col
  ((matching.map (fun r => r.venue col)).dedup).map
    (fun v => (matching.countP (fun r => decide (r.venue col = v)), v))

/-- `collections.Counter` keyed by prefixed venue-id strings: a tally
function together with the list of keys inserted so far (`counter[k] += c`
inserts the key even when `c = 0`, and `pandas.DataFrame.from_dict` later
tests precisely whether any key exists). -/
structure VCounter where
  val : String → ℕ
  keys : List String

/-- The fresh `Counter()` built at the top of `get_venue_counts`. -/
def VCounter.empty : VCounter := ⟨fun _ => 0, []⟩

/-- `counter[k] += v`. -/
def VCounter.add (c : VCounter) (k : String) (v : ℕ) : VCounter :=
  ⟨fun k' => if k' = k then c.val k' + v else c.val k',
   if k ∈ c.keys then c.keys else c.keys ++ [k]⟩

/-- `Interdisc._update_counter`: each result row is `(count, venue_id)`
(`row[0]` the count, `row[1]` the venue), and bumps key
`pfx ++ str(venue_id)` by the count. -/
def update_counter (vc : VCounter) (r : List (ℕ × ℕ)) (pfx : String) : VCounter :=
  r.foldl (fun c row => c.add (pfx ++ toString row.2) row.1) vc

/-- Python 2 `string.letters`. -/
def letters : List Char :=
  "abcdefghijklmnopqrstuvwxyzABCDEFGHIJKLMNOPQRSTUVWXYZ".toList

/-- The one-letter tag `string.letters[i]` assigned to venue taxonomy `i`
(`venue_prefixes` in the source; the source raises `IndexError` beyond 52
columns, which the claims never exercise). -/
def pfx_of (i : ℕ) : String := String.mk [letters.getD i 'a']

/-- One iteration of the `while` loop body in `Interdisc.get_venue_counts`:
query every venue taxonomy for the current id batch and merge each result
into the counter under the taxonomy's tag. -/
def query_step (db : CitationDB) (subset : List PaperId) (vc : VCounter) : VCounter :=
  (List.range db.colname_venue.length).foldl
    (fun c i =>
      update_counter c (query_for_venue_counts db subset (db.colname_venue.getD i ""))
        (pfx_of i)) vc

/-- Number of iterations of the batching loop: it processes slices
`[0:qt], [qt:2qt], …` and breaks only after the first slice start strictly
exceeding `len`, hence `len / qt + 1` iterations (the last slice may be
empty).  For `qt = 0` the Python loop never terminates; the model is only
meaningful for `0 < qt` and the theorems assume it. -/
def num_batches (len qt : ℕ) : ℕ := len / qt + 1

/-- The counter produced by the batching loop of `Interdisc.get_venue_counts`
over slices of size `qt` (`query_threshold`). -/
def merged_counter (db : CitationDB) (paperids : List PaperId) (qt : ℕ) : VCounter :=
  (List.range (num_batches paperids.length qt)).foldl
    (fun vc i => query_step db ((paperids.drop (i * qt)).take qt) vc) VCounter.empty

/-- `Interdisc.get_venue_counts`: run the batching loop, put the counter in a
DataFrame, reindex it onto the fixed `venue_ids` (dropping counter keys
outside the list and filling missing venues with 0), and return `None` when
the DataFrame is empty.  A pandas DataFrame is empty iff one of its axes has
length 0: no counter key (no column survives `from_dict`) or no venue id (no
row survives `reindex`). -/
def get_venue_counts (db : CitationDB) (venue_ids : List String)
    (paperids : List PaperId) (qt : ℕ) : Option (List ℕ) :=
  let vc := merged_counter db paperids qt
  if vc.keys = [] ∨ venue_ids = [] then none
  else some (venue_ids.map vc.val)

/-- A single unbatched query over the whole id list, merged into a fresh
counter: the reference point for the batching-equivalence claim. -/
def unbatched_counter (db : CitationDB) (paperids : List PaperId) : VCounter :=
  query_step db paperids VCounter.empty

/-- Default `query_threshold` of `get_venue_counts`, used by the facade. -/
def default_query_threshold : ℕ := 100000

/-- `Interdisc.jensen_shannon_div`: mean distribution `distm`, then each KL
term summed over its own operand's strictly positive support
(`np.where(dist > 0)`), in base-2 logarithm (`np.log(·) / np.log(2)`). -/
noncomputable def jensen_shannon_div {n : ℕ} (dista distb : Fin n → ℝ) : ℝ :=
  let distm : Fin n → ℝ := fun i => (dista i + distb i) / 2
  let dkla : ℝ := ∑ i ∈ Finset.univ.filter (fun i => 0 < dista i),
    Real.log (dista i / distm i) / Real.log 2 * dista i
  let dklb : ℝ := ∑ i ∈ Finset.univ.filter (fun i => 0 < distb i),
    Real.log (distb i / distm i) / Real.log 2 * distb i
  (dkla + dklb) / 2

/-- `Interdisc.integrator`: normalize the outgoing counts by their total
(`testa = outgoingcite / float(sum(outgoingcite))`, with no zero-total
guard), then accumulate `jensen_shannon_div(testa, rownorm[j]) * testa[j]`
over the indices `j` with `testa[j] > 0`.  The sparse and dense branches of
the source compute the same row vector, modelled once. -/
noncomputable def integrator {n : ℕ} (outgoingcite : Fin n → ℝ)
    (rownorm : Fin n → Fin n → ℝ) : ℝ :=
  let testa : Fin n → ℝ := fun i => outgoingcite i / (∑ k, outgoingcite k)
  ∑ j ∈ Finset.univ.filter (fun j => 0 < testa j),
    jensen_shannon_div testa (rownorm j) * testa j

/-- `Interdisc.broadcast`: symmetric to `integrator`, pairing the normalized
incoming counts with matrix columns `colnorm[:, j]`. -/
noncomputable def broadcast {n : ℕ} (incomingcite : Fin n → ℝ)
    (colnorm : Fin n → Fin n → ℝ) : ℝ :=
  let testb : Fin n → ℝ := fun i => incomingcite i / (∑ k, incomingcite k)
  ∑ j ∈ Finset.univ.filter (fun j => 0 < testb j),
    jensen_shannon_div testb (fun i => colnorm i j) * testb j

/-- `by.lower().startswith('col')`, rendered over the character list (the
string is ASCII here) so that it evaluates inside the kernel. -/
def lower_starts_with_col (s : String) : Bool :=
  (s.toList.map Char.toLower).take 3 = ['c', 'o', 'l']

/-- `Interdisc.normalize_matrix`, i.e. `sklearn.preprocessing.normalize(mat,
norm='l1', axis=…)`: divide each row (default) or column — chosen by whether
the `by` string lowercased starts with `'col'` — by its L1 norm; rows or
columns of zero norm are left unchanged (sklearn substitutes norm 1). -/
noncomputable def normalize_matrix {n m : ℕ} (mat : Fin n → Fin m → ℝ)
    (by_ : String) : Fin n → Fin m → ℝ :=
  if lower_starts_with_col by_ then
    fun i j => if (∑ i', |mat i' j|) = 0 then mat i j else mat i j / (∑ i', |mat i' j|)
  else
    fun i j => if (∑ j', |mat i j'|) = 0 then mat i j else mat i j / (∑ j', |mat i j'|)

/-- `Interdisc.rowcolnorm`: both normalized forms of the venue matrix. -/
noncomputable def rowcolnorm {n m : ℕ} (mat : Fin n → Fin m → ℝ) :
    (Fin n → Fin m → ℝ) × (Fin n → Fin m → ℝ) :=
  (normalize_matrix mat "row", normalize_matrix mat "column")

/-- The `Interdisc` engine state after `__init__`: the database handle, the
venue-id list, the venue matrix and its two cached normalized forms. -/
structure Interdisc (n : ℕ) where
  db : CitationDB
  venue_ids : List String
  venue_matrix : Fin n → Fin n → ℝ
  rownorm : Fin n → Fin n → ℝ
  colnorm : Fin n → Fin n → ℝ

/-- `Interdisc.__init__` with in-memory arguments: store the id list
(`load_venue_ids`, non-string branch), store the matrix and eagerly compute
`rowcolnorm` (`load_venue_matrix`, non-string branch).  The file-reading
branches only parse external files into the same in-memory values.  The
source performs no comparison between the matrix dimension and the id-list
length. -/
noncomputable def Interdisc.make {n : ℕ} (db : CitationDB) (venue_ids : List String)
    (venue_matrix : Fin n → Fin n → ℝ) : Interdisc n :=
  { db := db
    venue_ids := venue_ids
    venue_matrix := venue_matrix
    rownorm := (rowcolnorm venue_matrix).1
    colnorm := (rowcolnorm venue_matrix).2 }

/-- `Interdisc.get_integrator_score` (score component): fetch outgoing
citations, aggregate venue counts with the default threshold; `None` counts
short-circuit to score `0`, otherwise the counts series (indexed by
`venue_ids`) feeds `integrator` against the cached `rownorm`. -/
noncomputable def get_integrator_score {n : ℕ} (idc : Interdisc n)
    (paperids : List PaperId) : ℝ :=
  let Cout := idc.db.cites_out paperids
  match get_venue_counts idc.db idc.venue_ids Cout default_query_threshold with
  | none => 0
  | some cs => integrator (fun i => ((cs.getD i.val 0 : ℕ) : ℝ)) idc.rownorm

/-- `Interdisc.get_integrator_score` with `return_n=True`: the same score
paired with `len(Cout)`, the number of outgoing citations considered. -/
noncomputable def get_integrator_score_n {n : ℕ} (idc : Interdisc n)
    (paperids : List PaperId) : ℝ × ℕ :=
  (get_integrator_score idc paperids, (idc.db.cites_out paperids).length)

/-! ### Derived counting functions used to reason about the batching loop -/

/-- Total amount a query-result list adds to counter key `k` when merged by
`update_counter` under tag `pfx`. -/
def contrib (r : List (ℕ × ℕ)) (pfx k : String) : ℕ :=
  (r.map (fun row => if pfx ++ toString row.2 = k then row.1 else 0)).sum

/-- How many rows of `l` fall on counter key `k` through venue column `col`
under tag `pfx`. -/
def row_key_count (l : List PaperRow) (col pfx k : String) : ℕ :=
  (l.map (fun r => if pfx ++ toString (r.venue col) = k then 1 else 0)).sum

/-- Weight a single `Papers` row adds to key `k` via column `col` when its
paper id is selected. -/
def row_weight (col pfx k : String) (r : PaperRow) : ℕ :=
  if 0 < r.venue col ∧ pfx ++ toString (r.venue col) = k then 1 else 0

/-- Amount one loop iteration (all venue taxonomies, one id batch) adds to
counter key `k`. -/
def tax_contrib (db : CitationDB) (subset : List PaperId) (k : String) : ℕ :=
  ((List.range db.colname_venue.length).map
    (fun i => contrib (query_for_venue_counts db subset (db.colname_venue.getD i ""))
      (pfx_of i) k)).sum

/-- Counters built from `Counter()` tally nothing outside their key list. -/
def KeyInv (c : VCounter) : Prop := ∀ k, k ∉ c.keys → c.val k = 0

/-! ### Concrete database instances used as test inputs -/

/-- A store with a single paper `"p"` classified under venue `7` in every
venue column, and whose out-citation query always returns `["p"]`. -/
def exdb2 : CitationDB :=
  { colname_venue := ["J"]
    papers := [⟨"p", fun _ => 7⟩]
    cites_out := fun _ => ["p"] }

/-- A store with two venue taxonomies and five papers, used to replay the
spec's batching example. -/
def exdb5 : CitationDB :=
  { colname_venue := ["J", "C"]
    papers := [⟨"p1", fun c => if c = "J" then 7 else 3⟩,
               ⟨"p2", fun c => if c = "J" then 7 else 0⟩,
               ⟨"p3", fun c => if c = "J" then 9 else 3⟩,
               ⟨"p4", fun c => if c = "J" then 0 else 0⟩,
               ⟨"p5", fun c => if c = "J" then 7 else 3⟩]
    cites_out := fun _ => [] }

/-- A store whose citation queries return nothing. -/
def exdb0 : CitationDB :=
  { colname_venue := ["J"]
    papers := []
    cites_out := fun _ => [] }

/-- A 3×3 all-ones matrix, deliberately mismatched with a 2-element venue-id
list in the configuration-error claim. -/
def vm3 : Fin 3 → Fin 3 → ℝ := fun _ _ => 1

/-! ### Counter lemmas -/

theorem VCounter.add_val (c : VCounter) (k : String) (v : ℕ) (k' : String) :
    (c.add k v).val k' = if k' = k then c.val k' + v else c.val k' := rfl

theorem update_counter_val (pfx k : String) :
    ∀ (r : List (ℕ × ℕ)) (vc : VCounter),
      (update_counter vc r pfx).val k = vc.val k + contrib r pfx k := by
  intro r
  induction r with
  | nil => intro vc; simp [update_counter, contrib]
  | cons row rest ih =>
    intro vc
    have hstep : update_counter vc (row :: rest) pfx
        = update_counter (vc.add (pfx ++ toString row.2) row.1) rest pfx := rfl
    rw [hstep, ih, VCounter.add_val]
    simp only [contrib, List.map_cons, List.sum_cons]
    by_cases h : pfx ++ toString row.2 = k
    · rw [if_pos h.symm, if_pos h]; omega
    · rw [if_neg (fun e => h e.symm), if_neg h]; omega

theorem foldl_val_add {β : Type} (f : VCounter → β → VCounter) (g : β → ℕ) (k : String)
    (h : ∀ c b, (f c b).val k = c.val k + g b) :
    ∀ (l : List β) (c : VCounter), (l.foldl f c).val k = c.val k + (l.map g).sum := by
  intro l
  induction l with
  | nil => intro c; simp
  | cons b l ih =>
    intro c
    rw [List.foldl_cons, ih, h, List.map_cons, List.sum_cons, Nat.add_assoc]

theorem query_step_val (db : CitationDB) (subset : List PaperId) (vc : VCounter)
    (k : String) :
    (query_step db subset vc).val k = vc.val k + tax_contrib db subset k := by
  have h := foldl_val_add
    (fun c i => update_counter c
      (query_for_venue_counts db subset (db.colname_venue.getD i "")) (pfx_of i))
    (fun i => contrib (query_for_venue_counts db subset (db.colname_venue.getD i ""))
      (pfx_of i) k) k
    (fun c i => update_counter_val (pfx_of i) k _ c)
    (List.range db.colname_venue.length) vc
  simpa [query_step, tax_contrib] using h

theorem merged_counter_val (db : CitationDB) (pids : List PaperId) (qt : ℕ)
    (k : String) :
    (merged_counter db pids qt).val k
      = ((List.range (num_batches pids.length qt)).map
          (fun i => tax_contrib db ((pids.drop (i * qt)).take qt) k)).sum := by
  have h := foldl_val_add
    (fun vc i => query_step db ((pids.drop (i * qt)).take qt) vc)
    (fun i => tax_contrib db ((pids.drop (i * qt)).take qt) k) k
    (fun c i => query_step_val db _ c k)
    (List.range (num_batches pids.length qt)) VCounter.empty
  simpa [merged_counter, VCounter.empty] using h

theorem unbatched_counter_val (db : CitationDB) (pids : List PaperId) (k : String) :
    (unbatched_counter db pids).val k = tax_contrib db pids k := by
  have h := query_step_val db pids VCounter.empty k
  simpa [unbatched_counter, VCounter.empty] using h

/-! ### Grouped query results count matching table rows -/

theorem countP_eq_sum_map {α : Type} (p : α → Bool) (l : List α) :
    l.countP p = (l.map (fun x => if p x then 1 else 0)).sum := by
  induction l with
  | nil => rfl
  | cons x l ih =>
    rw [List.countP_cons, List.map_cons, List.sum_cons, ih]
    by_cases h : p x <;> simp [h] <;> omega

theorem sum_map_pick {vs : List ℕ} (hnd : vs.Nodup) {a : ℕ} (ha : a ∈ vs)
    (c : ℕ → ℕ) :
    (vs.map (fun v => if v = a then c v else 0)).sum = c a := by
  induction vs with
  | nil => cases ha
  | cons v vs ih =>
    rcases List.nodup_cons.mp hnd with ⟨hv, hnd'⟩
    rcases List.mem_cons.mp ha with h | h
    · have hz : (vs.map (fun v' => if v' = a then c v' else 0)).sum = 0 := by
        apply List.sum_eq_zero
        intro x hx
        rcases List.mem_map.mp hx with ⟨v', hv', rfl⟩
        have hna : v' ≠ a := by
          intro e
          rw [e, h] at hv'
          exact hv hv'
        simp [hna]
      rw [List.map_cons, List.sum_cons, if_pos h.symm, hz, h, Nat.add_zero]
    · have hva : v ≠ a := fun e => hv (e ▸ h)
      rw [List.map_cons, List.sum_cons, if_neg hva, ih hnd' h, Nat.zero_add]

theorem sum_over_dedup {α : Type} (g : α → ℕ) (q : ℕ → Prop) [DecidablePred q] :
    ∀ (l : List α) (vs : List ℕ), vs.Nodup → (∀ x ∈ l, g x ∈ vs) →
      (vs.map (fun v =>
        if q v then (l.map (fun x => if g x = v then 1 else 0)).sum else 0)).sum
        = (l.map (fun x => if q (g x) then 1 else 0)).sum := by
  intro l
  induction l with
  | nil =>
    intro vs _ _
    simp
  | cons x l ih =>
    intro vs hnd hcov
    have hx : g x ∈ vs := hcov x (List.mem_cons_self x l)
    have hcov' : ∀ y ∈ l, g y ∈ vs := fun y hy => hcov y (List.mem_cons_of_mem x hy)
    have hsplit : ∀ v : ℕ,
        (if q v then ((x :: l).map (fun y => if g y = v then 1 else 0)).sum else 0)
          = (if v = g x then (if q v then 1 else 0) else 0)
            + (if q v then (l.map (fun y => if g y = v then 1 else 0)).sum else 0) := by
      intro v
      rw [List.map_cons, List.sum_cons]
      by_cases h1 : q v
      · by_cases h2 : g x = v
        · simp [h1, h2]
        · have h2' : v ≠ g x := fun e => h2 e.symm
          simp [h1, h2, h2']
      · simp [h1]
    simp only [hsplit]
    rw [List.sum_map_add, ih vs hnd hcov',
      sum_map_pick hnd hx (fun v => if q v then 1 else 0)]
    simp

theorem contrib_query (db : CitationDB) (subset : List PaperId) (col pfx k : String) :
    contrib (query_for_venue_counts db subset col) pfx k
      = row_key_count (matching_rows db subset col) col pfx k := by
  unfold contrib query_for_venue_counts row_key_count
  rw [List.map_map]
  have hcomp : ((fun row : ℕ × ℕ => if pfx ++ toString row.2 = k then row.1 else 0)
      ∘ (fun v => ((matching_rows db subset col).countP
          (fun r => decide (r.venue col = v)), v)))
      = fun v => if pfx ++ toString v = k then
          ((matching_rows db subset col).map
            (fun r => if r.venue col = v then 1 else 0)).sum else 0 := by
    funext v
    simp [Function.comp, countP_eq_sum_map]
  rw [hcomp]
  exact sum_over_dedup (fun r => r.venue col) (fun v => pfx ++ toString v = k)
    (matching_rows db subset col) _ (List.nodup_dedup _)
    (fun x hx => List.mem_dedup.mpr (List.mem_map_of_mem _ hx))

theorem sum_map_filter {α : Type} (p : α → Bool) (f : α → ℕ) :
    ∀ l : List α,
      ((l.filter p).map f).sum = (l.map (fun x => if p x then f x else 0)).sum := by
  intro l
  induction l with
  | nil => rfl
  | cons x l ih =>
    by_cases h : p x
    · rw [List.filter_cons_of_pos h, List.map_cons, List.sum_cons, ih,
        List.map_cons, List.sum_cons, if_pos h]
    · rw [List.filter_cons_of_neg (by simpa using h), List.map_cons,
        List.sum_cons, ih, if_neg h, Nat.zero_add]

theorem row_key_count_matching (db : CitationDB) (subset : List PaperId)
    (col pfx k : String) :
    row_key_count (matching_rows db subset col) col pfx k
      = (db.papers.map (fun r =>
          if r.pid ∈ subset then row_weight col pfx k r else 0)).sum := by
  unfold row_key_count matching_rows
  rw [sum_map_filter]
  apply congrArg List.sum
  apply List.map_eq_map_iff.mpr
  intro r _
  by_cases h1 : r.pid ∈ subset <;> by_cases h2 : 0 < r.venue col <;>
    simp [row_weight, h1, h2]

theorem tax_contrib_eq (db : CitationDB) (subset : List PaperId) (k : String) :
    tax_contrib db subset k
      = ((List.range db.colname_venue.length).map
          (fun i => (db.papers.map (fun r =>
            if r.pid ∈ subset
            then row_weight (db.colname_venue.getD i "") (pfx_of i) k r
            else 0)).sum)).sum := by
  unfold tax_contrib
  apply congrArg List.sum
  apply List.map_eq_map_iff.mpr
  intro i _
  rw [contrib_query, row_key_count_matching]

/-! ### The batch slices cover the id list -/

theorem chunks_flatten {α : Type} (qt : ℕ) (hqt : 0 < qt) :
    ∀ l : List α, ((List.range (num_batches l.length qt)).map
      (fun i => (l.drop (i * qt)).take qt)).flatten = l := by
  suffices h : ∀ (n : ℕ) (l : List α), l.length / qt = n →
      ((List.range (n + 1)).map (fun i => (l.drop (i * qt)).take qt)).flatten = l by
    intro l
    exact h (l.length / qt) l rfl
  intro n
  induction n with
  | zero =>
    intro l hl
    have hlen : l.length < qt := (Nat.div_eq_zero_iff hqt).mp hl
    simp only [Nat.zero_add, show List.range 1 = [0] from rfl, List.map_cons,
      List.map_nil, List.flatten_cons, List.flatten_nil, List.append_nil,
      Nat.zero_mul, List.drop_zero]
    exact List.take_of_length_le (Nat.le_of_lt hlen)
  | succ n ih =>
    intro l hl
    have hle : qt ≤ l.length := by
      by_contra hcon
      push_neg at hcon
      rw [Nat.div_eq_of_lt hcon] at hl
      exact Nat.succ_ne_zero n hl.symm
    have hdrop : (l.drop qt).length / qt = n := by
      rw [List.length_drop]
      have h1 : l.length - qt + qt = l.length := Nat.sub_add_cancel hle
      have h2 : (l.length - qt + qt) / qt = (l.length - qt) / qt + 1 :=
        Nat.add_div_right _ hqt
      rw [h1, hl] at h2
      omega
    rw [List.range_succ_eq_map, List.map_cons, List.flatten_cons, List.map_map]
    have hc : ((fun i => (l.drop (i * qt)).take qt) ∘ Nat.succ)
        = fun i => ((l.drop qt).drop (i * qt)).take qt := by
      funext i
      have hd : (l.drop qt).drop (i * qt) = l.drop (Nat.succ i * qt) := by
        rw [List.drop_drop]
        congr 1
        rw [Nat.succ_eq_add_one]
        ring
      simp [Function.comp, hd]
    rw [hc, ih (l.drop qt) hdrop]
    simp

theorem sum_indicator_chunks (pids : List PaperId) (qt : ℕ) (hqt : 0 < qt)
    (hnd : pids.Nodup) (x : PaperId) :
    ((List.range (num_batches pids.length qt)).map
      (fun i => if x ∈ (pids.drop (i * qt)).take qt then 1 else 0)).sum
      = if x ∈ pids then 1 else 0 := by
  have hcount : ∀ i : ℕ, (if x ∈ (pids.drop (i * qt)).take qt then 1 else 0)
      = ((pids.drop (i * qt)).take qt).count x := by
    intro i
    have hnodup : ((pids.drop (i * qt)).take qt).Nodup :=
      (hnd.sublist (List.drop_sublist _ _)).sublist (List.take_sublist _ _)
    by_cases hx : x ∈ (pids.drop (i * qt)).take qt
    · rw [if_pos hx, List.count_eq_one_of_mem hnodup hx]
    · rw [if_neg hx, List.count_eq_zero.mpr hx]
  simp only [hcount]
  have hmm : (List.range (num_batches pids.length qt)).map
        (fun i => ((pids.drop (i * qt)).take qt).count x)
      = ((List.range (num_batches pids.length qt)).map
          (fun i => (pids.drop (i * qt)).take qt)).map (List.count x) := by
    rw [List.map_map]
    rfl
  rw [hmm, ← List.count_flatten, chunks_flatten qt hqt pids]
  by_cases hx : x ∈ pids
  · rw [if_pos hx, List.count_eq_one_of_mem hnd hx]
  · rw [if_neg hx, List.count_eq_zero.mpr hx]

theorem sum_map_sum_comm {α β : Type} (l1 : List α) (l2 : List β) (f : α → β → ℕ) :
    (l1.map (fun a => (l2.map (f a)).sum)).sum
      = (l2.map (fun b => (l1.map (fun a => f a b)).sum)).sum := by
  induction l1 with
  | nil =>
    simp only [List.map_nil, List.sum_nil]
    refine (List.sum_eq_zero ?_).symm
    intro y hy
    rcases List.mem_map.mp hy with ⟨b, _, rfl⟩
    rfl
  | cons a l1 ih =>
    rw [List.map_cons, List.sum_cons, ih]
    exact (List.sum_map_add).symm

/-- The central batching fact: with a positive threshold and a duplicate-free
paper-id list, the batched loop tallies exactly what a single query over the
whole list tallies, for every counter key. -/
theorem merged_eq_unbatched (db : CitationDB) (pids : List PaperId) (qt : ℕ)
    (hqt : 0 < qt) (hnd : pids.Nodup) (k : String) :
    (merged_counter db pids qt).val k = (unbatched_counter db pids).val k := by
  rw [merged_counter_val, unbatched_counter_val, tax_contrib_eq]
  have h1 : ∀ b : ℕ, tax_contrib db ((pids.drop (b * qt)).take qt) k
      = ((List.range db.colname_venue.length).map
          (fun i => (db.papers.map (fun r =>
            if r.pid ∈ (pids.drop (b * qt)).take qt
            then row_weight (db.colname_venue.getD i "") (pfx_of i) k r
            else 0)).sum)).sum :=
    fun b => tax_contrib_eq db _ k
  simp only [h1]
  rw [sum_map_sum_comm]
  apply congrArg List.sum
  apply List.map_eq_map_iff.mpr
  intro i _
  rw [sum_map_sum_comm]
  apply congrArg List.sum
  apply List.map_eq_map_iff.mpr
  intro r _
  have h2 : ∀ b : ℕ, (if r.pid ∈ (pids.drop (b * qt)).take qt
      then row_weight (db.colname_venue.getD i "") (pfx_of i) k r else 0)
      = row_weight (db.colname_venue.getD i "") (pfx_of i) k r
        * (if r.pid ∈ (pids.drop (b * qt)).take qt then 1 else 0) := by
    intro b
    by_cases h : r.pid ∈ (pids.drop (b * qt)).take qt <;> simp [h]
  simp only [h2]
  rw [List.sum_map_mul_left, sum_indicator_chunks pids qt hqt hnd]
  by_cases h : r.pid ∈ pids <;> simp [h]

/-! ### Empty-input and key-tracking lemmas -/

theorem query_for_venue_counts_nil (db : CitationDB) (col : String) :
    query_for_venue_counts db [] col = [] := by
  have hm : matching_rows db [] col = [] := by
    simp [matching_rows]
  simp [query_for_venue_counts, hm]

theorem foldl_fixed {α β : Type} (f : α → β → α) (h : ∀ c b, f c b = c) :
    ∀ (l : List β) (c : α), l.foldl f c = c := by
  intro l
  induction l with
  | nil => intro c; rfl
  | cons b l ih => intro c; rw [List.foldl_cons, h, ih]

theorem query_step_nil (db : CitationDB) (vc : VCounter) :
    query_step db [] vc = vc := by
  apply foldl_fixed
  intro c i
  rw [query_for_venue_counts_nil]
  rfl

theorem merged_counter_nil (db : CitationDB) (qt : ℕ) :
    merged_counter db [] qt = VCounter.empty := by
  apply foldl_fixed
  intro c i
  have : (([] : List PaperId).drop (i * qt)).take qt = [] := by simp
  rw [this, query_step_nil]

theorem get_venue_counts_nil (db : CitationDB) (venue_ids : List String) (qt : ℕ) :
    get_venue_counts db venue_ids [] qt = none := by
  unfold get_venue_counts
  rw [merged_counter_nil]
  simp [VCounter.empty]

theorem KeyInv.empty : KeyInv VCounter.empty := fun _ _ => rfl

theorem KeyInv.add {c : VCounter} (h : KeyInv c) (k : String) (v : ℕ) :
    KeyInv (c.add k v) := by
  intro k' hk'
  have hkeys : (c.add k v).keys = if k ∈ c.keys then c.keys else c.keys ++ [k] := rfl
  rw [hkeys] at hk'
  have hne : k' ≠ k ∧ k' ∉ c.keys := by
    by_cases hmem : k ∈ c.keys
    · rw [if_pos hmem] at hk'
      exact ⟨fun e => hk' (e ▸ hmem), hk'⟩
    · rw [if_neg hmem] at hk'
      simp only [List.mem_append, List.mem_singleton] at hk'
      push_neg at hk'
      exact ⟨hk'.2, hk'.1⟩
  rw [VCounter.add_val, if_neg hne.1]
  exact h k' hne.2

theorem KeyInv.update_counter {vc : VCounter} (h : KeyInv vc)
    (r : List (ℕ × ℕ)) (pfx : String) : KeyInv (update_counter vc r pfx) := by
  induction r generalizing vc with
  | nil => exact h
  | cons row rest ih =>
    exact ih (h.add (pfx ++ toString row.2) row.1)

theorem foldl_preserve {β : Type} (f : VCounter → β → VCounter)
    (h : ∀ c b, KeyInv c → KeyInv (f c b)) :
    ∀ (l : List β) (c : VCounter), KeyInv c → KeyInv (l.foldl f c) := by
  intro l
  induction l with
  | nil => intro c hc; exact hc
  | cons b l ih => intro c hc; exact ih (f c b) (h c b hc)

theorem KeyInv.query_step {vc : VCounter} (h : KeyInv vc) (db : CitationDB)
    (subset : List PaperId) : KeyInv (query_step db subset vc) :=
  foldl_preserve _ (fun c i hc => hc.update_counter _ _) _ vc h

theorem KeyInv.merged_counter (db : CitationDB) (pids : List PaperId) (qt : ℕ) :
    KeyInv (merged_counter db pids qt) :=
  foldl_preserve _ (fun c i hc => hc.query_step db _) _ VCounter.empty KeyInv.empty

/-! ### Properties of the divergence sums -/

theorem sum_filter_pos_of_nonneg {n : ℕ} (A : Fin n → ℝ) (hA : ∀ i, 0 ≤ A i) :
    ∑ i ∈ Finset.univ.filter (fun i => 0 < A i), A i = ∑ i, A i :=
  Finset.sum_filter_of_ne (fun x _ hx => lt_of_le_of_ne (hA x) (Ne.symm hx))

/-- Gibbs' inequality for the source's KL sums: each KL term of the JS
divergence, taken over its own operand's support against the mean
distribution, is nonnegative. -/
theorem kl_sum_nonneg {n : ℕ} (A B : Fin n → ℝ) (hA : ∀ i, 0 ≤ A i)
    (hB : ∀ i, 0 ≤ B i)
    (hsA : ∑ i ∈ Finset.univ.filter (fun i => 0 < A i), A i = 1)
    (hsB : ∑ i ∈ Finset.univ.filter (fun i => 0 < B i), B i = 1) :
    0 ≤ ∑ i ∈ Finset.univ.filter (fun i => 0 < A i),
      Real.log (A i / ((A i + B i) / 2)) / Real.log 2 * A i := by
  have log2pos : 0 < Real.log 2 := Real.log_pos (by norm_num)
  have hterm : ∀ i : Fin n, Real.log (A i / ((A i + B i) / 2)) / Real.log 2 * A i
      = Real.log (A i / ((A i + B i) / 2)) * A i / Real.log 2 := by
    intro i; ring
  simp only [hterm]
  rw [← Finset.sum_div]
  apply div_nonneg _ (le_of_lt log2pos)
  have hmain : ∑ i ∈ Finset.univ.filter (fun i => 0 < A i), (A i - (A i + B i) / 2)
      ≤ ∑ i ∈ Finset.univ.filter (fun i => 0 < A i),
          Real.log (A i / ((A i + B i) / 2)) * A i := by
    apply Finset.sum_le_sum
    intro i hi
    have hAi : 0 < A i := (Finset.mem_filter.mp hi).2
    have hm : 0 < (A i + B i) / 2 := by
      have := hB i
      linarith
    have h1 : Real.log ((A i + B i) / 2 / A i) ≤ (A i + B i) / 2 / A i - 1 :=
      Real.log_le_sub_one_of_pos (div_pos hm hAi)
    have h2 : Real.log ((A i + B i) / 2 / A i)
        = - Real.log (A i / ((A i + B i) / 2)) := by
      rw [Real.log_div hm.ne' hAi.ne', Real.log_div hAi.ne' hm.ne']
      ring
    have hlog : 1 - (A i + B i) / 2 / A i ≤ Real.log (A i / ((A i + B i) / 2)) := by
      rw [h2] at h1
      linarith
    have hmul := mul_le_mul_of_nonneg_right hlog (le_of_lt hAi)
    have heq : (1 - (A i + B i) / 2 / A i) * A i = A i - (A i + B i) / 2 := by
      field_simp
      ring
    rw [heq] at hmul
    exact hmul
  have hsuppm : ∑ i ∈ Finset.univ.filter (fun i => 0 < A i), (A i + B i) / 2 ≤ 1 := by
    have hsub : ∑ i ∈ Finset.univ.filter (fun i => 0 < A i), (A i + B i) / 2
        ≤ ∑ i : Fin n, (A i + B i) / 2 := by
      apply Finset.sum_le_sum_of_subset_of_nonneg (Finset.filter_subset _ _)
      intro i _ _
      have := hA i
      have := hB i
      linarith
    have htot : ∑ i : Fin n, (A i + B i) / 2 = 1 := by
      have hAu : ∑ i : Fin n, A i = 1 := by
        rw [← sum_filter_pos_of_nonneg A hA]
        exact hsA
      have hBu : ∑ i : Fin n, B i = 1 := by
        rw [← sum_filter_pos_of_nonneg B hB]
        exact hsB
      rw [← Finset.sum_div, Finset.sum_add_distrib, hAu, hBu]
      norm_num
    linarith
  have hsplit : ∑ i ∈ Finset.univ.filter (fun i => 0 < A i), (A i - (A i + B i) / 2)
      = 1 - ∑ i ∈ Finset.univ.filter (fun i => 0 < A i), (A i + B i) / 2 := by
    rw [Finset.sum_sub_distrib, hsA]
  linarith

/-- Each KL term of the JS divergence against the mean distribution is at
most one bit: on the operand's support the mean is at least half the
operand, so every log ratio is at most `log 2`. -/
theorem kl_sum_le_one {n : ℕ} (A B : Fin n → ℝ) (hA : ∀ i, 0 ≤ A i)
    (hB : ∀ i, 0 ≤ B i)
    (hsA : ∑ i ∈ Finset.univ.filter (fun i => 0 < A i), A i = 1) :
    ∑ i ∈ Finset.univ.filter (fun i => 0 < A i),
      Real.log (A i / ((A i + B i) / 2)) / Real.log 2 * A i ≤ 1 := by
  have log2pos : 0 < Real.log 2 := Real.log_pos (by norm_num)
  have hbound : ∀ i ∈ Finset.univ.filter (fun i => 0 < A i),
      Real.log (A i / ((A i + B i) / 2)) / Real.log 2 * A i ≤ A i := by
    intro i hi
    have hAi : 0 < A i := (Finset.mem_filter.mp hi).2
    have hm : 0 < (A i + B i) / 2 := by
      have := hB i
      linarith
    have hle2 : A i / ((A i + B i) / 2) ≤ 2 := by
      rw [div_le_iff₀ hm]
      have := hB i
      linarith
    have hdivpos : 0 < A i / ((A i + B i) / 2) := div_pos hAi hm
    have hlog : Real.log (A i / ((A i + B i) / 2)) ≤ Real.log 2 :=
      (Real.log_le_log_iff hdivpos (by norm_num)).mpr hle2
    have hq : Real.log (A i / ((A i + B i) / 2)) / Real.log 2 ≤ 1 :=
      (div_le_one log2pos).mpr hlog
    calc Real.log (A i / ((A i + B i) / 2)) / Real.log 2 * A i
        ≤ 1 * A i := mul_le_mul_of_nonneg_right hq (hA i)
      _ = A i := one_mul _
  calc ∑ i ∈ Finset.univ.filter (fun i => 0 < A i),
        Real.log (A i / ((A i + B i) / 2)) / Real.log 2 * A i
      ≤ ∑ i ∈ Finset.univ.filter (fun i => 0 < A i), A i := Finset.sum_le_sum hbound
    _ = 1 := hsA

/-! ### Claims -/

/-- C1 (counterexample): `Interdisc.__init__` performs no size validation.
Loading a 3×3 venue matrix together with a 2-element venue-id list raises no
configuration error: construction goes through and yields an engine whose
stored id list and matrix have the mismatched sizes, refuting the claim that
load fails fast when the dimension differs from the number of venue ids. -/
theorem interdisc_make_mismatched_sizes :
    (Interdisc.make exdb0 ["v1", "v2"] vm3).venue_ids.length = 2
    ∧ (Interdisc.make exdb0 ["v1", "v2"] vm3).venue_matrix = vm3
    ∧ (2 : ℕ) ≠ 3 :=
  ⟨rfl, rfl, by omega⟩

/-- C1 (amended): construction never compares the matrix dimension with the
venue-id count; even when they disagree, `load_venue_ids`/`load_venue_matrix`
store the inputs as given and compute the normalized matrices, producing an
engine rather than failing. -/
theorem interdisc_make_no_dimension_check {n : ℕ} (db : CitationDB)
    (ids : List String) (vm : Fin n → Fin n → ℝ) (h : ids.length ≠ n) :
    Interdisc.make db ids vm
      = ⟨db, ids, vm, normalize_matrix vm "row", normalize_matrix vm "column"⟩ :=
  rfl

/-- Witness for C1: the unvalidated construction at the concrete mismatched
input (2 ids, 3×3 matrix). -/
theorem interdisc_make_no_dimension_check_witness :
    (["v1", "v2"] : List String).length ≠ 3
    ∧ Interdisc.make exdb0 ["v1", "v2"] vm3
      = ⟨exdb0, ["v1", "v2"], vm3, normalize_matrix vm3 "row",
          normalize_matrix vm3 "column"⟩ :=
  ⟨by decide, interdisc_make_no_dimension_check exdb0 ["v1", "v2"] vm3 (by decide)⟩

/-- C2 (counterexample): the facade's guard only intercepts the `None`
sentinel, and it is not true that every count vector reaching `integrator`
has a nonzero total.  With venue-id list `["a9"]` and a store whose only
matching venue key is `"a7"`, the aggregation returns `some [0]` — a
non-`None` vector passing the guard — whose total is `0`, so the division by
`sum(outgoingcite)` inside `integrator` is a division by zero. -/
theorem facade_guard_admits_zero_total :
    get_venue_counts exdb2 ["a9"] (exdb2.cites_out ["x"]) default_query_threshold
      = some [0]
    ∧ ([0] : List ℕ).sum = 0 :=
  ⟨rfl, rfl⟩

/-- C2 (amended): the zero-total guard lives only in the facade's `None`
check, which a non-`None` all-zero vector passes; `integrator` and
`broadcast` then divide by the zero total unguarded.  The returned score is
still `0`, because after the unguarded division no index passes the strict
positivity filter (in the source the quotients are NaN, whose comparisons
are false; in this real-number model division by zero yields zero). -/
theorem integrator_broadcast_zero_total {n : ℕ} (cs : Fin n → ℝ)
    (M : Fin n → Fin n → ℝ) (h : (∑ i, cs i) = 0) :
    integrator cs M = 0 ∧ broadcast cs M = 0 := by
  constructor
  · simp only [integrator, h, div_zero]
    simp
  · simp only [broadcast, h, div_zero]
    simp

/-- Witness for C2: the all-zero one-venue count vector. -/
theorem integrator_broadcast_zero_total_witness :
    (∑ i : Fin 1, (![0] : Fin 1 → ℝ) i) = 0
    ∧ integrator (![0] : Fin 1 → ℝ) ![![1]] = 0
    ∧ broadcast (![0] : Fin 1 → ℝ) ![![1]] = 0 := by
  have h : (∑ i : Fin 1, (![0] : Fin 1 → ℝ) i) = 0 := by simp
  exact ⟨h, (integrator_broadcast_zero_total _ ![![1]] h).1,
    (integrator_broadcast_zero_total _ ![![1]] h).2⟩

/-- C3: the spec's worked example.  With three venues,
`row_normalized = [[0,1,0],[0.5,0,0.5],[0,0,1]]` and
`outgoing_counts = [0,2,0]`, the counts normalize to `P = [0,1,0]` and the
integrator score equals `jensen_shannon([0,1,0],[0.5,0,0.5])` (the single
supported venue carries weight 1). -/
theorem integrator_spec_example :
    integrator (![0, 2, 0] : Fin 3 → ℝ) ![![0, 1, 0], ![1/2, 0, 1/2], ![0, 0, 1]]
      = jensen_shannon_div (![0, 1, 0] : Fin 3 → ℝ) ![1/2, 0, 1/2] := by
  have hsum : (∑ k, (![0, 2, 0] : Fin 3 → ℝ) k) = 2 := by
    rw [Fin.sum_univ_three]
    norm_num
  have htesta : ∀ i : Fin 3,
      (![0, 2, 0] : Fin 3 → ℝ) i / (∑ k, (![0, 2, 0] : Fin 3 → ℝ) k)
        = (![0, 1, 0] : Fin 3 → ℝ) i := by
    intro i
    rw [hsum]
    fin_cases i <;> norm_num
  simp only [integrator, htesta]
  have hfil : Finset.univ.filter (fun j => 0 < (![0, 1, 0] : Fin 3 → ℝ) j) = {1} := by
    ext j
    fin_cases j <;> simp
  rw [hfil, Finset.sum_singleton]
  have h1 : (![0, 1, 0] : Fin 3 → ℝ) 1 = 1 := rfl
  have h2 : (![![0, 1, 0], ![1/2, 0, 1/2], ![0, 0, 1]] : Fin 3 → Fin 3 → ℝ) 1
      = ![1/2, 0, 1/2] := rfl
  rw [h1, h2, mul_one]

/-- C4: for every probability vector `P` (nonnegative, summing to 1 over its
own support), `jensen_shannon(P, P) = 0`: the mean distribution coincides
with `P`, so every log ratio on the support is `log 1 = 0`. -/
theorem jensen_shannon_self {n : ℕ} (P : Fin n → ℝ) (hP : ∀ i, 0 ≤ P i)
    (hsP : ∑ i ∈ Finset.univ.filter (fun i => 0 < P i), P i = 1) :
    jensen_shannon_div P P = 0 := by
  simp only [jensen_shannon_div]
  have hz : ∀ i ∈ Finset.univ.filter (fun i => 0 < P i),
      Real.log (P i / ((P i + P i) / 2)) / Real.log 2 * P i = 0 := by
    intro i hi
    have hPi : 0 < P i := (Finset.mem_filter.mp hi).2
    have hpp : (P i + P i) / 2 = P i := by ring
    rw [hpp, div_self hPi.ne', Real.log_one, zero_div, zero_mul]
  rw [Finset.sum_congr rfl hz]
  simp

/-- Witness for C4: the point distribution on one venue. -/
theorem jensen_shannon_self_witness :
    (∀ i : Fin 1, 0 ≤ (![1] : Fin 1 → ℝ) i)
    ∧ (∑ i ∈ Finset.univ.filter (fun i => 0 < (![1] : Fin 1 → ℝ) i),
        (![1] : Fin 1 → ℝ) i) = 1
    ∧ jensen_shannon_div (![1] : Fin 1 → ℝ) ![1] = 0 := by
  have h1 : ∀ i : Fin 1, 0 ≤ (![1] : Fin 1 → ℝ) i := by
    intro i
    fin_cases i
    norm_num
  have h2 : (∑ i ∈ Finset.univ.filter (fun i => 0 < (![1] : Fin 1 → ℝ) i),
      (![1] : Fin 1 → ℝ) i) = 1 := by
    rw [Finset.sum_filter]
    simp
  exact ⟨h1, h2, jensen_shannon_self ![1] h1 h2⟩

/-- C5: for equal-length nonnegative vectors each summing to 1 over its own
support (zeros allowed), the Jensen-Shannon divergence of the source is
symmetric and lies in `[0, 1]` (base-2 logarithm). -/
theorem jensen_shannon_symm_bounded {n : ℕ} (A B : Fin n → ℝ)
    (hA : ∀ i, 0 ≤ A i) (hB : ∀ i, 0 ≤ B i)
    (hsA : ∑ i ∈ Finset.univ.filter (fun i => 0 < A i), A i = 1)
    (hsB : ∑ i ∈ Finset.univ.filter (fun i => 0 < B i), B i = 1) :
    jensen_shannon_div A B = jensen_shannon_div B A
    ∧ 0 ≤ jensen_shannon_div A B ∧ jensen_shannon_div A B ≤ 1 := by
  have hcomm : ∀ i : Fin n, (B i + A i) / 2 = (A i + B i) / 2 := fun i => by ring
  have ha0 := kl_sum_nonneg A B hA hB hsA hsB
  have hb0 := kl_sum_nonneg B A hB hA hsB hsA
  have ha1 := kl_sum_le_one A B hA hB hsA
  have hb1 := kl_sum_le_one B A hB hA hsB
  simp only [hcomm] at hb0 hb1
  refine ⟨?_, ?_, ?_⟩
  · simp only [jensen_shannon_div, hcomm]
    ring
  · simp only [jensen_shannon_div]
    linarith
  · simp only [jensen_shannon_div]
    linarith

/-- Witness for C5: two point distributions on distinct venues. -/
theorem jensen_shannon_symm_bounded_witness :
    (∀ i : Fin 2, 0 ≤ (![1, 0] : Fin 2 → ℝ) i)
    ∧ (∀ i : Fin 2, 0 ≤ (![0, 1] : Fin 2 → ℝ) i)
    ∧ (∑ i ∈ Finset.univ.filter (fun i => 0 < (![1, 0] : Fin 2 → ℝ) i),
        (![1, 0] : Fin 2 → ℝ) i) = 1
    ∧ (∑ i ∈ Finset.univ.filter (fun i => 0 < (![0, 1] : Fin 2 → ℝ) i),
        (![0, 1] : Fin 2 → ℝ) i) = 1
    ∧ jensen_shannon_div (![1, 0] : Fin 2 → ℝ) ![0, 1]
        = jensen_shannon_div (![0, 1] : Fin 2 → ℝ) ![1, 0]
    ∧ 0 ≤ jensen_shannon_div (![1, 0] : Fin 2 → ℝ) ![0, 1]
    ∧ jensen_shannon_div (![1, 0] : Fin 2 → ℝ) ![0, 1] ≤ 1 := by
  have h1 : ∀ i : Fin 2, 0 ≤ (![1, 0] : Fin 2 → ℝ) i := by
    intro i
    fin_cases i <;> norm_num
  have h2 : ∀ i : Fin 2, 0 ≤ (![0, 1] : Fin 2 → ℝ) i := by
    intro i
    fin_cases i <;> norm_num
  have h3 : (∑ i ∈ Finset.univ.filter (fun i => 0 < (![1, 0] : Fin 2 → ℝ) i),
      (![1, 0] : Fin 2 → ℝ) i) = 1 := by
    rw [Finset.sum_filter, Fin.sum_univ_two]
    norm_num
  have h4 : (∑ i ∈ Finset.univ.filter (fun i => 0 < (![0, 1] : Fin 2 → ℝ) i),
      (![0, 1] : Fin 2 → ℝ) i) = 1 := by
    rw [Finset.sum_filter, Fin.sum_univ_two]
    norm_num
  obtain ⟨hs, hlo, hhi⟩ := jensen_shannon_symm_bounded ![1, 0] ![0, 1] h1 h2 h3 h4
  exact ⟨h1, h2, h3, h4, hs, hlo, hhi⟩

/-- C6: L1-normalizing a nonnegative matrix by rows makes every row of
nonzero sum add up to exactly 1 while rows of zero sum stay all-zero (no
division by zero), and symmetrically for columns. -/
theorem normalize_matrix_props {n m : ℕ} (mat : Fin n → Fin m → ℝ)
    (hmat : ∀ i j, 0 ≤ mat i j) :
    (∀ i, (∑ j, mat i j) ≠ 0 → ∑ j, normalize_matrix mat "row" i j = 1)
    ∧ (∀ i, (∑ j, mat i j) = 0 → ∀ j, normalize_matrix mat "row" i j = 0)
    ∧ (∀ j, (∑ i, mat i j) ≠ 0 → ∑ i, normalize_matrix mat "column" i j = 1)
    ∧ (∀ j, (∑ i, mat i j) = 0 → ∀ i, normalize_matrix mat "column" i j = 0) := by
  have hrowflag : lower_starts_with_col "row" = false := by decide
  have hcolflag : lower_starts_with_col "column" = true := by decide
  have hrowfn : ∀ i j, normalize_matrix mat "row" i j
      = if (∑ j', |mat i j'|) = 0 then mat i j
        else mat i j / (∑ j', |mat i j'|) := by
    intro i j
    simp [normalize_matrix, hrowflag]
  have hcolfn : ∀ i j, normalize_matrix mat "column" i j
      = if (∑ i', |mat i' j|) = 0 then mat i j
        else mat i j / (∑ i', |mat i' j|) := by
    intro i j
    simp [normalize_matrix, hcolflag]
  have habsr : ∀ i, (∑ j', |mat i j'|) = ∑ j', mat i j' :=
    fun i => Finset.sum_congr rfl (fun j _ => abs_of_nonneg (hmat i j))
  have habsc : ∀ j, (∑ i', |mat i' j|) = ∑ i', mat i' j :=
    fun j => Finset.sum_congr rfl (fun i _ => abs_of_nonneg (hmat i j))
  refine ⟨?_, ?_, ?_, ?_⟩
  · intro i hs
    have hne : (∑ j', |mat i j'|) ≠ 0 := by
      rw [habsr i]
      exact hs
    have hfn : ∀ j : Fin m, normalize_matrix mat "row" i j
        = mat i j / (∑ j', |mat i j'|) := by
      intro j
      rw [hrowfn i j, if_neg hne]
    rw [Finset.sum_congr rfl (fun j _ => hfn j), ← Finset.sum_div, habsr i,
      div_self hs]
  · intro i hs j
    have hz : mat i j = 0 :=
      (Finset.sum_eq_zero_iff_of_nonneg (fun j _ => hmat i j)).mp hs j
        (Finset.mem_univ j)
    rw [hrowfn i j]
    by_cases h : (∑ j', |mat i j'|) = 0
    · rw [if_pos h]
      exact hz
    · rw [if_neg h, hz, zero_div]
  · intro j hs
    have hne : (∑ i', |mat i' j|) ≠ 0 := by
      rw [habsc j]
      exact hs
    have hfn : ∀ i : Fin n, normalize_matrix mat "column" i j
        = mat i j / (∑ i', |mat i' j|) := by
      intro i
      rw [hcolfn i j, if_neg hne]
    rw [Finset.sum_congr rfl (fun i _ => hfn i), ← Finset.sum_div, habsc j,
      div_self hs]
  · intro j hs i
    have hz : mat i j = 0 :=
      (Finset.sum_eq_zero_iff_of_nonneg (fun i _ => hmat i j)).mp hs i
        (Finset.mem_univ i)
    rw [hcolfn i j]
    by_cases h : (∑ i', |mat i' j|) = 0
    · rw [if_pos h]
      exact hz
    · rw [if_neg h, hz, zero_div]

/-- Witness for C6: a 2×2 matrix with one positive row and one zero row. -/
theorem normalize_matrix_props_witness :
    (∀ i j : Fin 2, 0 ≤ (![![1, 1], ![0, 0]] : Fin 2 → Fin 2 → ℝ) i j)
    ∧ (∑ j, (![![1, 1], ![0, 0]] : Fin 2 → Fin 2 → ℝ) 0 j) ≠ 0
    ∧ (∑ j, normalize_matrix (![![1, 1], ![0, 0]] : Fin 2 → Fin 2 → ℝ) "row" 0 j) = 1
    ∧ (∑ j, (![![1, 1], ![0, 0]] : Fin 2 → Fin 2 → ℝ) 1 j) = 0
    ∧ (∀ j, normalize_matrix (![![1, 1], ![0, 0]] : Fin 2 → Fin 2 → ℝ) "row" 1 j = 0) := by
  have hmat : ∀ i j : Fin 2, 0 ≤ (![![1, 1], ![0, 0]] : Fin 2 → Fin 2 → ℝ) i j := by
    intro i j
    fin_cases i <;> fin_cases j <;> norm_num
  have hrow0 : (∑ j, (![![1, 1], ![0, 0]] : Fin 2 → Fin 2 → ℝ) 0 j) ≠ 0 := by
    rw [Fin.sum_univ_two]
    norm_num
  have hrow1 : (∑ j, (![![1, 1], ![0, 0]] : Fin 2 → Fin 2 → ℝ) 1 j) = 0 := by
    rw [Fin.sum_univ_two]
    norm_num
  obtain ⟨hone, hzero, _, _⟩ := normalize_matrix_props _ hmat
  exact ⟨hmat, hrow0, hone 0 hrow0, hrow1, hzero 1 hrow1⟩

/-- C7 (counterexample): batched aggregation is NOT equivalent to an
unbatched query for every input: a paper id duplicated across batch
boundaries is collapsed by the SQL `IN` clause inside one query but tallied
once per batch by the loop.  With id list `["p","p"]` and chunk size 1 the
merged counter tallies 2 for key `"a7"`, while the single unbatched query
(equivalently, chunk size 3) tallies 1. -/
theorem batching_duplicate_ids_cex :
    (merged_counter exdb2 ["p", "p"] 1).val "a7" = 2
    ∧ (unbatched_counter exdb2 ["p", "p"]).val "a7" = 1
    ∧ get_venue_counts exdb2 ["a7"] ["p", "p"] 1 = some [2]
    ∧ get_venue_counts exdb2 ["a7"] ["p", "p"] 3 = some [1] :=
  ⟨rfl, rfl, rfl, rfl⟩

/-- C7 (amended): with chunk size 2 over a 5-element paper-id list the loop
runs exactly 3 batches (each issuing one query per taxonomy), and on the
spec's 5-paper example the batched and single-query aggregations agree;
in general, for every positive chunk size and *duplicate-free* paper-id
list the merged counter equals the unbatched one — duplicates crossing
batch boundaries break the equivalence, as the counterexample shows. -/
theorem batched_aggregation_matches_unbatched :
    num_batches 5 2 = 3
    ∧ get_venue_counts exdb5 ["a7", "a9", "b3"] ["p1", "p2", "p3", "p4", "p5"] 2
        = get_venue_counts exdb5 ["a7", "a9", "b3"] ["p1", "p2", "p3", "p4", "p5"] 6
    ∧ ∀ (db : CitationDB) (pids : List PaperId) (qt : ℕ), 0 < qt → pids.Nodup →
        ∀ k, (merged_counter db pids qt).val k = (unbatched_counter db pids).val k :=
  ⟨rfl, rfl, fun db pids qt hqt hnd k => merged_eq_unbatched db pids qt hqt hnd k⟩

/-- Witness for C7: the general equivalence applied to a concrete positive
chunk size and duplicate-free id list. -/
theorem batched_aggregation_matches_unbatched_witness :
    0 < 2 ∧ (["p1", "p2", "p3"] : List PaperId).Nodup
    ∧ (merged_counter exdb5 ["p1", "p2", "p3"] 2).val "a7"
        = (unbatched_counter exdb5 ["p1", "p2", "p3"]).val "a7" :=
  ⟨by norm_num, by decide,
    batched_aggregation_matches_unbatched.2.2 exdb5 ["p1", "p2", "p3"] 2
      (by norm_num) (by decide) "a7"⟩

/-- C8: aggregating venue counts for an empty paper-id list yields the
`None` sentinel (the merged counter acquires no key, so the DataFrame is
empty), not a zero-filled vector.  The positivity hypothesis on the
threshold reflects that the source's loop does not terminate at 0. -/
theorem get_venue_counts_empty_papers (db : CitationDB) (venue_ids : List String)
    (qt : ℕ) (hqt : 0 < qt) :
    get_venue_counts db venue_ids [] qt = none :=
  get_venue_counts_nil db venue_ids qt

/-- Witness for C8: the default threshold and a concrete store. -/
theorem get_venue_counts_empty_papers_witness :
    0 < default_query_threshold
    ∧ get_venue_counts exdb2 ["a7"] [] default_query_threshold = none :=
  ⟨by norm_num [default_query_threshold],
    get_venue_counts_empty_papers exdb2 ["a7"] default_query_threshold
      (by norm_num [default_query_threshold])⟩

/-- C9: when the outgoing-citation lookup returns no citations,
`get_integrator_score` returns score `0`, and with `return_n=True` it
returns `(0, 0)`: the empty citation list aggregates to the `None` sentinel,
which short-circuits the score, and `len(Cout) = 0`. -/
theorem get_integrator_score_no_citations {n : ℕ} (idc : Interdisc n)
    (paperids : List PaperId) (h : idc.db.cites_out paperids = []) :
    get_integrator_score idc paperids = 0
    ∧ get_integrator_score_n idc paperids = (0, 0) := by
  have hscore : get_integrator_score idc paperids = 0 := by
    simp only [get_integrator_score, h, get_venue_counts_nil]
  refine ⟨hscore, ?_⟩
  simp only [get_integrator_score_n, hscore, h, List.length_nil]

/-- Witness for C9: an engine over a store with no citations. -/
theorem get_integrator_score_no_citations_witness :
    (Interdisc.make exdb0 ["a7"] (![![1]] : Fin 1 → Fin 1 → ℝ)).db.cites_out ["x"] = []
    ∧ get_integrator_score (Interdisc.make exdb0 ["a7"] (![![1]] : Fin 1 → Fin 1 → ℝ)) ["x"] = 0
    ∧ get_integrator_score_n (Interdisc.make exdb0 ["a7"] (![![1]] : Fin 1 → Fin 1 → ℝ)) ["x"]
        = (0, 0) := by
  have h : (Interdisc.make exdb0 ["a7"] (![![1]] : Fin 1 → Fin 1 → ℝ)).db.cites_out ["x"]
      = [] := rfl
  obtain ⟨h1, h2⟩ := get_integrator_score_no_citations
    (Interdisc.make exdb0 ["a7"] (![![1]] : Fin 1 → Fin 1 → ℝ)) ["x"] h
  exact ⟨h, h1, h2⟩

/-- C10 (counterexample): the sentinel is NOT returned exactly when the
merged counter is empty — with an empty venue-id list the reindexed
DataFrame has no rows and is empty, so `get_venue_counts` returns `None`
even though the merged counter holds the key `"a7"`. -/
theorem sentinel_despite_nonempty_counter :
    (merged_counter exdb2 ["p"] 1).keys ≠ []
    ∧ get_venue_counts exdb2 [] ["p"] 1 = none := by
  refine ⟨by decide, rfl⟩

/-- C10 (amended): when the merged prefixed counter is non-empty *and* the
fixed venue-id list is non-empty, `get_venue_counts` returns the integer
vector obtained by reading the counter at each fixed venue id — length
`len(venue_ids)`, counter keys outside the list silently dropped, and venue
ids carrying no counter key (in particular all of them, when no prefixed key
appears in the list) read 0. -/
theorem get_venue_counts_nonempty_counter (db : CitationDB)
    (venue_ids : List String) (pids : List PaperId) (qt : ℕ)
    (hkeys : (merged_counter db pids qt).keys ≠ []) (hvids : venue_ids ≠ []) :
    get_venue_counts db venue_ids pids qt
      = some (venue_ids.map (merged_counter db pids qt).val)
    ∧ (venue_ids.map (merged_counter db pids qt).val).length = venue_ids.length
    ∧ ∀ v ∈ venue_ids, v ∉ (merged_counter db pids qt).keys
        → (merged_counter db pids qt).val v = 0 := by
  refine ⟨?_, by simp, ?_⟩
  · simp only [get_venue_counts]
    rw [if_neg]
    intro hor
    exact hor.elim hkeys hvids
  · intro v _ hv
    exact KeyInv.merged_counter db pids qt v hv

/-- Witness for C10: a non-empty counter whose only key is absent from the
venue-id list still produces a (zero) vector, not the sentinel. -/
theorem get_venue_counts_nonempty_counter_witness :
    (merged_counter exdb2 ["p"] 1).keys ≠ [] ∧ (["zz"] : List String) ≠ []
    ∧ get_venue_counts exdb2 ["zz"] ["p"] 1
        = some (["zz"].map (merged_counter exdb2 ["p"] 1).val) := by
  have h1 : (merged_counter exdb2 ["p"] 1).keys ≠ [] := by decide
  have h2 : (["zz"] : List String) ≠ [] := by decide
  exact ⟨h1, h2, (get_venue_counts_nonempty_counter exdb2 ["zz"] ["p"] 1 h1 h2).1⟩
